import Mathlib

/-!
Shallow embedding of the TypeFall leaderboard server (`src/leaderboard-server.js`,
with the auxiliary functions of the second server iteration where cited).
Sheets are lists of rows, a row is a list of JavaScript values; the handlers are
pure state transformers on the three sheets (`players`, `global_scores`,
`level_scores`).
-/

namespace Typefall

/-- The JavaScript values that flow through the server: `undefined`, strings and
(integer) numbers.  Sheet cells and request-body fields are such values. -/
inductive JSVal where
  | undefined : JSVal
  | str : String → JSVal
  | num : Int → JSVal
deriving DecidableEq, Repr

/-- JS truthiness of a value: `undefined`, `""` and `0` are falsy. -/
def truthy : JSVal → Bool
  | .undefined => false
  | .str s => s ≠ ""
  | .num n => n ≠ 0

/-- JS `v || 0`. -/
def jsOr0 (v : JSVal) : JSVal := if truthy v then v else .num 0

/-- JS `v || "d"`. -/
def jsOrStr (v : JSVal) (d : String) : JSVal := if truthy v then v else .str d

/-- Value of a list of decimal digits. -/
def digitsToNat (cs : List Char) : Nat :=
  cs.foldl (fun acc c => acc * 10 + (c.toNat - '0'.toNat)) 0

/-- `parseInt` on a string (radix 10): skip leading whitespace, optional sign,
then the longest run of decimal digits; `none` models `NaN` (no digits). -/
def parseIntStr (s : String) : Option Int :=
  let cs := s.data.dropWhile Char.isWhitespace
  let signRest : Int × List Char :=
    match cs with
    | '-' :: rest => (-1, rest)
    | '+' :: rest => (1, rest)
    | _ => (1, cs)
  let ds := signRest.2.takeWhile Char.isDigit
  if ds.isEmpty then none else some (signRest.1 * (digitsToNat ds : Int))

/-- `parseInt(v)`: numbers are reprinted and reparsed, so integral numbers are
returned unchanged; `undefined` gives `NaN` (`none`). -/
def jsParseInt : JSVal → Option Int
  | .undefined => none
  | .num n => some n
  | .str s => parseIntStr s

/-- The ubiquitous `parseInt(v) || 0` idiom: `NaN` (and `0` itself) become `0`. -/
def jsIntOr0 (v : JSVal) : Int := (jsParseInt v).getD 0

/-- JS numeric coercion `Number(v)` restricted to the integer value space of this
model: a trimmed-empty string is `0`, a whole decimal integer string is its value,
any other string and `undefined` are `NaN` (`none`). -/
def jsToNumber : JSVal → Option Int
  | .undefined => none
  | .num n => some n
  | .str s =>
    let cs := (s.data.dropWhile Char.isWhitespace).reverse.dropWhile Char.isWhitespace
    let cs := cs.reverse
    if cs.isEmpty then some 0
    else
      match cs with
      | '-' :: rest =>
        if !rest.isEmpty && rest.all Char.isDigit then some (-(digitsToNat rest : Int)) else none
      | _ => if cs.all Char.isDigit then some (digitsToNat cs) else none

/-- JS `v > m` against a number `m`; comparisons against `NaN` are false. -/
def jsGt (v : JSVal) (m : Int) : Bool :=
  match jsToNumber v with
  | some n => m < n
  | none => false

/-- One sheet row, as the Sheets API returns it: a list of cell values. -/
abbrev Row := List JSVal

/-- JS `row[i]`: `undefined` when the index is out of range. -/
def getJS (r : Row) (i : Nat) : JSVal := (r[i]?).getD .undefined

/-- Overwrite cell `c` of a row; writing past the end pads the intermediate
cells with empty strings, as the written row reads back from the sheet. -/
def setCell (r : Row) (c : Nat) (v : JSVal) : Row :=
  if c < r.length then r.set c v
  else r ++ List.replicate (c - r.length) (.str "") ++ [v]

/-- Row `i` (0-based) of a sheet; an out-of-range read is an empty row. -/
def getRow (sheet : List Row) (i : Nat) : Row := (sheet[i]?).getD []

/-- Apply `f` to element `n` of a list (identity when out of range). -/
def listModify (f : Row → Row) : Nat → List Row → List Row
  | _, [] => []
  | 0, r :: rs => f r :: rs
  | n + 1, r :: rs => r :: listModify f n rs

/-- A single-cell `values.update` at A1 row `idx` (1-based, as in the code's
range strings) and column `c` (0-based). -/
def setSheetCell (sheet : List Row) (idx : Nat) (c : Nat) (v : JSVal) : List Row :=
  listModify (fun r => setCell r c v) (idx - 1) sheet

/-- `values.length > 0 && values[0][0] === header ? 1 : 0`: skip a header row. -/
def startIndex (values : List Row) (header : String) : Nat :=
  match values with
  | [] => 0
  | r :: _ => if getJS r 0 = .str header then 1 else 0

/-- One element of the `playerData` array built by the position-recalculation
loops: id, name, `parseInt(row[10]) || 0` and the 1-based sheet row index.
(`recalculateGlobalPositions` does not carry `player_name`; it is inert there.) -/
structure PlayerDatum where
  player_id : JSVal
  player_name : JSVal
  total_score : Int
  row_index : Nat
deriving DecidableEq, Repr

/-- The collection loop of the position recalculation, with the loop counter
explicit.  `excludeDeleted` selects the `row[0] !== "DELETED"` conjunct present in
the `/global-score` handler but absent from `recalculateGlobalPositions`. -/
def collectPlayerData (excludeDeleted : Bool) : Nat → List Row → List PlayerDatum
  | _, [] => []
  | i, row :: rest =>
    if 11 ≤ row.length ∧ (excludeDeleted = true → getJS row 0 ≠ .str "DELETED") then
      { player_id := getJS row 0, player_name := getJS row 1,
        total_score := jsIntOr0 (getJS row 10), row_index := i + 1 }
        :: collectPlayerData excludeDeleted (i + 1) rest
    else collectPlayerData excludeDeleted (i + 1) rest

/-- `playerData` for the whole `players` sheet (loop from `startIndex`). -/
def playerDataOf (excludeDeleted : Bool) (values : List Row) : List PlayerDatum :=
  collectPlayerData excludeDeleted (startIndex values "player_id")
    (values.drop (startIndex values "player_id"))

/-- Insertion step of the unique stable descending sort by `key`.  The element
being inserted precedes, in the original array, everything already sorted, so it
lands before the first element whose key is not larger. -/
def insertDescBy (key : α → Int) (x : α) : List α → List α
  | [] => [x]
  | y :: ys => if key y ≤ key x then x :: y :: ys else y :: insertDescBy key x ys

/-- The unique stable descending sort by `key`, realizing ECMAScript
`array.sort((a, b) => key(b) - key(a))` (`Array.prototype.sort` is stable). -/
def sortDescBy (key : α → Int) : List α → List α
  | [] => []
  | x :: xs => insertDescBy key x (sortDescBy key xs)

/-- The write loop of the position recalculation: down the sorted array, cell
`L(row_index)` receives position `i + 1` (a number). -/
def positionWritesFrom : Nat → List PlayerDatum → List (Nat × JSVal)
  | _, [] => []
  | i, d :: rest => (d.row_index, .num ((i : Int) + 1)) :: positionWritesFrom (i + 1) rest

/-- Perform a sequence of writes to column L (index 11) of the sheet. -/
def applyWrites (sheet : List Row) : List (Nat × JSVal) → List Row
  | [] => sheet
  | (idx, v) :: rest => applyWrites (setSheetCell sheet idx 11 v) rest

/-- The whole position recalculation over the `players` sheet: read all rows,
collect `playerData`, sort by `total_score` descending, write back positions. -/
def recalcPositions (excludeDeleted : Bool) (values : List Row) : List Row :=
  applyWrites values
    (positionWritesFrom 0 (sortDescBy PlayerDatum.total_score (playerDataOf excludeDeleted values)))

/-- `recalculateGlobalPositions` of the source (no DELETED filter). -/
def recalculateGlobalPositions (values : List Row) : List Row :=
  recalcPositions false values

/-- `checkPlayerExists` scan with explicit counter; yields the 1-based sheet
index and the row snapshot. -/
def findPlayerFrom (pid : JSVal) : Nat → List Row → Option (Nat × Row)
  | _, [] => none
  | i, row :: rest =>
    if getJS row 0 = pid then some (i + 1, row) else findPlayerFrom pid (i + 1) rest

/-- `checkPlayerExists(player_id)` over the `players` sheet. -/
def checkPlayerExists (players : List Row) (pid : JSVal) : Option (Nat × Row) :=
  findPlayerFrom pid (startIndex players "player_id")
    (players.drop (startIndex players "player_id"))

/-- The fresh row appended for a new player (columns A..L). -/
def newPlayerRow (pid pname : JSVal) (now : String) (total_score global_position : JSVal) : Row :=
  [pid, pname, .str now, .str now, .num 0, .num 0, .str "", .str "", .str "", .num 0,
   jsOr0 total_score, jsOr0 global_position]

/-- `createOrUpdatePlayer(player_id, player_name, _, total_score, global_position)`:
update name and `last_record` (and K:L when a positive total/position is passed),
or append a fresh row. -/
def createOrUpdatePlayer (players : List Row) (pid pname : JSVal) (now : String)
    (total_score global_position : JSVal) : List Row :=
  match checkPlayerExists players pid with
  | some (idx, _) =>
    let p := setSheetCell players idx 1 pname
    let p := setSheetCell p idx 3 (.str now)
    if jsGt total_score 0 || jsGt global_position 0 then
      setSheetCell (setSheetCell p idx 10 (jsOr0 total_score)) idx 11 (jsOr0 global_position)
    else p
  | none => players ++ [newPlayerRow pid pname now total_score global_position]

/-- `updatePlayerStats`: when the player is not found the function logs and
returns with no observable effect; otherwise it bumps `total_games` and, when the
score beats the stored highest score, rewrites columns F..J. -/
def updatePlayerStats (players : List Row) (pid score level_id difficulty language time : JSVal) :
    List Row :=
  match checkPlayerExists players pid with
  | none => players
  | some (idx, data) =>
    let p := setSheetCell players idx 4 (.num (jsIntOr0 (getJS data 4) + 1))
    if jsGt score (jsIntOr0 (getJS data 5)) then
      let p := setSheetCell p idx 5 score
      let p := setSheetCell p idx 6 level_id
      let p := setSheetCell p idx 7 difficulty
      let p := setSheetCell p idx 8 language
      setSheetCell p idx 9 time
    else p

/-- The three sheets of the spreadsheet. -/
structure ServerState where
  players : List Row
  global_scores : List Row
  level_scores : List Row
deriving DecidableEq, Repr

/-- The observable HTTP outcome of a submission: a 400 with an error message, or
a 200 with the success message (and, for `/global-score`, the player position). -/
inductive Response where
  | badRequest (error : String)
  | ok (message : String) (player_position : Option Int)
deriving DecidableEq, Repr

/-- Request body of `POST /global-score`. -/
structure GlobalScoreBody where
  player_id : JSVal
  player_name : JSVal
  total_score : JSVal
  total_games : JSVal
deriving DecidableEq, Repr

/-- Request body of `POST /level-score`. -/
structure LevelScoreBody where
  player_id : JSVal
  player_name : JSVal
  level_id : JSVal
  language : JSVal
  difficulty : JSVal
  score : JSVal
  time : JSVal
deriving DecidableEq, Repr

/-- The missing-fields check of `/global-score`. -/
def validGlobal (b : GlobalScoreBody) : Bool :=
  truthy b.player_id && truthy b.player_name && truthy b.total_score && truthy b.total_games

/-- `POST /global-score`: validate, append to `global_scores`, upsert the player
row (name, `last_record`, `total_games`, conditionally `highest_score` and
`total_score`), then recompute every player's global position and answer with
this player's position in the sorted array. -/
def handleGlobalScore (st : ServerState) (b : GlobalScoreBody) (now : String) :
    ServerState × Response :=
  if !validGlobal b then (st, .badRequest "Missing required fields")
  else
    let gs := st.global_scores ++
      [[b.player_id, b.player_name, b.total_score, b.total_games, .str now]]
    let ps :=
      match checkPlayerExists st.players b.player_id with
      | some (idx, data) =>
        let p := setSheetCell st.players idx 1 b.player_name
        let p := setSheetCell p idx 3 (.str now)
        let p := setSheetCell p idx 4 b.total_games
        let p :=
          if jsGt b.total_score (jsIntOr0 (getJS data 5)) then setSheetCell p idx 5 b.total_score
          else p
        if jsGt b.total_score (jsIntOr0 (getJS data 10)) then setSheetCell p idx 10 b.total_score
        else p
      | none => createOrUpdatePlayer st.players b.player_id b.player_name now b.total_score (.num 0)
    let sorted := sortDescBy PlayerDatum.total_score (playerDataOf true ps)
    let ps2 := applyWrites ps (positionWritesFrom 0 sorted)
    let pos : Int :=
      match sorted.findIdx? (fun d => d.player_id == b.player_id) with
      | some i => (i : Int) + 1
      | none => 0
    ({ players := ps2, global_scores := gs, level_scores := st.level_scores },
     .ok "Global score submitted and positions updated successfully!" (some pos))

/-- The missing-fields check of `/level-score`. -/
def validLevel (b : LevelScoreBody) : Bool :=
  truthy b.player_id && truthy b.player_name && truthy b.level_id && truthy b.language &&
    truthy b.difficulty && truthy b.score

/-- The row appended to `level_scores` for a submission. -/
def levelScoreRow (b : LevelScoreBody) (now : String) : Row :=
  [b.player_id, b.player_name, b.level_id, b.language, b.difficulty, b.score, .str now]

/-- `POST /level-score` with its storage interleaving point explicit: the handler
performs three separate storage interactions (append, `createOrUpdatePlayer`,
`updatePlayerStats`), each reading its own snapshot, with no transaction around
them; `mid` is the `players` table as seen by the read inside
`updatePlayerStats`.  The sequential, uninterfered run instantiates `mid` with
the table `createOrUpdatePlayer` left behind (see `handleLevelScore`). -/
def handleLevelScoreInterleaved (st : ServerState) (b : LevelScoreBody) (now : String)
    (mid : List Row) : ServerState × Response :=
  if !validLevel b then (st, .badRequest "Missing required fields")
  else
    let lvl := st.level_scores ++ [levelScoreRow b now]
    let p2 := updatePlayerStats mid b.player_id b.score b.level_id b.difficulty b.language
      (jsOr0 b.time)
    ({ players := p2, global_scores := st.global_scores, level_scores := lvl },
     .ok "Level score submitted successfully!" none)

/-- `POST /level-score`, sequential run: validate, append the score row, upsert
the player, update the per-player stats, respond with success. -/
def handleLevelScore (st : ServerState) (b : LevelScoreBody) (now : String) :
    ServerState × Response :=
  handleLevelScoreInterleaved st b now
    (createOrUpdatePlayer st.players b.player_id b.player_name now (.num 0) (.num 0))

/-- One output entry of `GET /global-leaderboard`. -/
structure GlobalLBEntry where
  player_id : JSVal
  player_name : JSVal
  total_score : Int
  global_position : Int
deriving DecidableEq, Repr

/-- The formatting loop of `GET /global-leaderboard`: keep rows with at least 11
cells not marked DELETED, reading the stored total score and global position. -/
def collectGlobalLB : List Row → List GlobalLBEntry
  | [] => []
  | row :: rest =>
    if 11 ≤ row.length ∧ getJS row 0 ≠ .str "DELETED" then
      { player_id := getJS row 0, player_name := getJS row 1,
        total_score := jsIntOr0 (getJS row 10), global_position := jsIntOr0 (getJS row 11) }
        :: collectGlobalLB rest
    else collectGlobalLB rest

/-- `GET /global-leaderboard`: format the `players` sheet, sort by `total_score`
descending, return the top 100. -/
def globalLeaderboardQuery (players : List Row) : List GlobalLBEntry :=
  (sortDescBy GlobalLBEntry.total_score
    (collectGlobalLB (players.drop (startIndex players "player_id")))).take 100

/-- One output entry of the legacy `GET /leaderboard`. -/
structure LegacyEntry where
  player_id : JSVal
  player_name : JSVal
  score : Int
deriving DecidableEq, Repr

/-- The row formatter of the legacy `GET /leaderboard`. -/
def legacyFormat (row : Row) : LegacyEntry :=
  { player_id := jsOrStr (getJS row 0) "Unknown",
    player_name := jsOrStr (getJS row 1) "Anonymous",
    score := jsIntOr0 (getJS row 2) }

/-- Legacy `GET /leaderboard` over the fetched `A2:C` rows: map every row, sort
by score descending.  (The empty-fetch early return yields the same empty list.) -/
def legacyLeaderboard (rows : List Row) : List LegacyEntry :=
  sortDescBy LegacyEntry.score (rows.map legacyFormat)

/-- The (level_id, language, difficulty) cells of a `level_scores` row. -/
def levelScopeOf (row : Row) : JSVal × JSVal × JSVal := (getJS row 2, getJS row 3, getJS row 4)

/-- Modelled from the spec: the player's best (maximum) score among the
`level_scores` rows of one level scope, `0` when the player has no entry there.
No code in the repository computes this; it is the spec's Aggregate Projector
(`project`) yardstick, stated from the spec's words for comparison. -/
def bestInScope (lvl : List Row) (pid : JSVal) (scope : JSVal × JSVal × JSVal) : Int :=
  (lvl.filter (fun r => getJS r 0 == pid && levelScopeOf r == scope)).foldl
    (fun acc r => max acc (jsIntOr0 (getJS r 5))) 0

/-- Modelled from the spec: `totalScore` as the spec defines it, the sum over
all level scopes of the player's best score in that scope. -/
def specTotalScore (lvl : List Row) (pid : JSVal) : Int :=
  ((lvl.map levelScopeOf).dedup).foldl (fun acc scope => acc + bestInScope lvl pid scope) 0

/-! Basic lemmas about rows, cells and sheets. -/

theorem listModify_length (f : Row → Row) (n : Nat) (l : List Row) :
    (listModify f n l).length = l.length := by
  induction l generalizing n with
  | nil => simp [listModify]
  | cons r rs ih =>
    cases n with
    | zero => simp [listModify]
    | succ n => simpa [listModify] using ih n

theorem listModify_get?_ne (f : Row → Row) {n j : Nat} (l : List Row) (h : j ≠ n) :
    (listModify f n l)[j]? = l[j]? := by
  induction l generalizing n j with
  | nil => simp [listModify]
  | cons r rs ih =>
    cases n with
    | zero =>
      obtain ⟨j, rfl⟩ := Nat.exists_eq_succ_of_ne_zero h
      simp [listModify]
    | succ n =>
      cases j with
      | zero => simp [listModify]
      | succ j => simpa [listModify] using ih (n := n) (j := j) (by omega)

theorem listModify_get?_eq (f : Row → Row) (n : Nat) (l : List Row) :
    (listModify f n l)[n]? = (l[n]?).map f := by
  induction l generalizing n with
  | nil => simp [listModify]
  | cons r rs ih =>
    cases n with
    | zero => simp [listModify]
    | succ n => simpa [listModify] using ih n

theorem setSheetCell_length (sheet : List Row) (idx c : Nat) (v : JSVal) :
    (setSheetCell sheet idx c v).length = sheet.length :=
  listModify_length _ _ _

theorem setSheetCell_get?_ne (sheet : List Row) {idx c : Nat} {v : JSVal} {j : Nat}
    (h : j ≠ idx - 1) : (setSheetCell sheet idx c v)[j]? = sheet[j]? :=
  listModify_get?_ne _ sheet h

theorem setSheetCell_get?_eq (sheet : List Row) (idx c : Nat) (v : JSVal) :
    (setSheetCell sheet idx c v)[idx - 1]? = (sheet[idx - 1]?).map (fun r => setCell r c v) :=
  listModify_get?_eq _ _ sheet

theorem length_setCell (r : Row) (c : Nat) (v : JSVal) :
    (setCell r c v).length = if c < r.length then r.length else c + 1 := by
  unfold setCell
  split
  · simp
  · simp only [List.length_append, List.length_replicate, List.length_cons, List.length_nil]
    omega

theorem length_le_length_setCell (r : Row) (c : Nat) (v : JSVal) :
    r.length ≤ (setCell r c v).length := by
  rw [length_setCell]; split <;> omega

/-- Reading back the cell just written. -/
theorem getJS_setCell_eq (r : Row) (c : Nat) (v : JSVal) : getJS (setCell r c v) c = v := by
  unfold setCell getJS
  split
  · next h => simp [List.getElem?_set_self h]
  · next h =>
    have hl : (r ++ List.replicate (c - r.length) (JSVal.str "")).length = c := by
      simp only [List.length_append, List.length_replicate]; omega
    rw [List.getElem?_append_right (Nat.le_of_eq hl), hl, Nat.sub_self]
    simp

/-- A write strictly below the read column never affects the read. -/
theorem getJS_setCell_above (r : Row) {w c : Nat} (v : JSVal) (h : w < c) :
    getJS (setCell r w v) c = getJS r c := by
  unfold setCell getJS
  split
  · next hw => rw [List.getElem?_set_ne (by omega)]
  · next hw =>
    have h1 : r[c]? = none := List.getElem?_eq_none (by omega)
    have h2 : (r ++ List.replicate (w - r.length) (JSVal.str "") ++ [v])[c]? = none := by
      refine List.getElem?_eq_none ?_
      simp only [List.length_append, List.length_replicate, List.length_cons, List.length_nil]
      omega
    rw [h1, h2]

/-- A write strictly above a read that stays inside the row does not affect it. -/
theorem getJS_setCell_below (r : Row) {w c : Nat} (v : JSVal) (h : c < w) (hc : c < r.length) :
    getJS (setCell r w v) c = getJS r c := by
  unfold setCell getJS
  split
  · next hw => rw [List.getElem?_set_ne (by omega)]
  · next hw =>
    rw [List.append_assoc, List.getElem?_append_left hc]

theorem setCell_of_lt (r : Row) {c : Nat} (v : JSVal) (h : c < r.length) :
    setCell r c v = r.set c v := by
  unfold setCell; rw [if_pos h]

theorem set_self_of_get? : ∀ (l : List JSVal) (i : Nat) (a : JSVal), l[i]? = some a → l.set i a = l := by
  intro l
  induction l with
  | nil => intro i a h; cases h
  | cons x xs ih =>
    intro i a h
    cases i with
    | zero => simp at h; simp [h]
    | succ i => simp at h ⊢; exact ih i a h

theorem setCell_setCell (r : Row) (c : Nat) (v : JSVal) :
    setCell (setCell r c v) c v = setCell r c v := by
  have hlen : c < (setCell r c v).length := by rw [length_setCell]; split <;> omega
  have hget : (setCell r c v)[c]? = some v := by
    have h1 := getJS_setCell_eq r c v
    unfold getJS at h1
    cases hx : (setCell r c v)[c]? with
    | none => exact absurd (List.getElem?_eq_none_iff.mp hx) (by omega)
    | some w => rw [hx] at h1; simp at h1; rw [h1]
  rw [setCell_of_lt _ v hlen, set_self_of_get? _ c v hget]

/-! Lemmas about the stable descending sort. -/

theorem insertDescBy_perm (key : α → Int) (x : α) (l : List α) :
    List.Perm (insertDescBy key x l) (x :: l) := by
  induction l with
  | nil => exact List.Perm.refl _
  | cons y ys ih =>
    unfold insertDescBy
    split
    · exact List.Perm.refl _
    · exact (List.Perm.cons y ih).trans (List.Perm.swap x y ys)

theorem sortDescBy_perm (key : α → Int) (l : List α) : List.Perm (sortDescBy key l) l := by
  induction l with
  | nil => exact List.Perm.refl _
  | cons x xs ih =>
    exact (insertDescBy_perm key x (sortDescBy key xs)).trans (List.Perm.cons x ih)

theorem mem_insertDescBy {key : α → Int} {x a : α} {l : List α} :
    a ∈ insertDescBy key x l ↔ a = x ∨ a ∈ l := by
  rw [(insertDescBy_perm key x l).mem_iff]; simp

theorem pairwise_insertDescBy {key : α → Int} {x : α} {l : List α}
    (hl : l.Pairwise fun a b => key b ≤ key a) :
    (insertDescBy key x l).Pairwise fun a b => key b ≤ key a := by
  induction l with
  | nil => simp [insertDescBy]
  | cons y ys ih =>
    rw [List.pairwise_cons] at hl
    unfold insertDescBy
    split
    · next hk =>
      refine List.Pairwise.cons ?_ (List.pairwise_cons.mpr hl)
      intro z hz
      rcases List.mem_cons.mp hz with rfl | hz
      · exact hk
      · exact le_trans (hl.1 z hz) hk
    · next hk =>
      refine List.Pairwise.cons ?_ (ih hl.2)
      intro z hz
      rcases mem_insertDescBy.mp hz with rfl | hz
      · omega
      · exact hl.1 z hz

/-- The output of the sort is sorted: scores are non-increasing. -/
theorem sortDescBy_pairwise (key : α → Int) (l : List α) :
    (sortDescBy key l).Pairwise fun a b => key b ≤ key a := by
  induction l with
  | nil => simp [sortDescBy]
  | cons x xs ih => exact pairwise_insertDescBy ih

theorem pairwise_lex_insertDescBy {key : α → Int} {idx : α → Nat} {x : α} {l : List α}
    (hl : l.Pairwise fun a b => key b < key a ∨ (key a = key b ∧ idx a < idx b))
    (hx : ∀ z ∈ l, idx x < idx z) :
    (insertDescBy key x l).Pairwise
      fun a b => key b < key a ∨ (key a = key b ∧ idx a < idx b) := by
  induction l with
  | nil => simp [insertDescBy]
  | cons y ys ih =>
    rw [List.pairwise_cons] at hl
    unfold insertDescBy
    split
    · next hk =>
      refine List.Pairwise.cons ?_ (List.pairwise_cons.mpr hl)
      intro z hz
      rcases List.mem_cons.mp hz with rfl | hz
      · have h2 := hx z (List.mem_cons_self _ _)
        omega
      · have h1 := hl.1 z hz
        have h2 := hx z (List.mem_cons_of_mem y hz)
        omega
    · next hk =>
      refine List.Pairwise.cons ?_
        (ih hl.2 fun z hz => hx z (List.mem_cons_of_mem y hz))
      intro z hz
      rcases mem_insertDescBy.mp hz with rfl | hz
      · omega
      · exact hl.1 z hz

/-- Stability: when the input carries strictly increasing tags, the output is
sorted for the lexicographic order (key descending, then tag ascending), i.e.
ties keep their original relative order. -/
theorem sortDescBy_pairwise_lex (key : α → Int) (idx : α → Nat) (l : List α)
    (h : l.Pairwise fun a b => idx a < idx b) :
    (sortDescBy key l).Pairwise
      fun a b => key b < key a ∨ (key a = key b ∧ idx a < idx b) := by
  induction l with
  | nil => simp [sortDescBy]
  | cons x xs ih =>
    rw [List.pairwise_cons] at h
    refine pairwise_lex_insertDescBy (ih h.2) ?_
    intro z hz
    exact h.1 z ((sortDescBy_perm key xs).mem_iff.mp hz)

/-! Lemmas about the recalculation data collection. -/

theorem collectPlayerData_mem {e : Bool} {i : Nat} {l : List Row} {d : PlayerDatum}
    (h : d ∈ collectPlayerData e i l) :
    ∃ j row, l[j]? = some row ∧ d.row_index = i + j + 1 ∧ 11 ≤ row.length ∧
      d.player_id = getJS row 0 ∧ d.player_name = getJS row 1 ∧
      d.total_score = jsIntOr0 (getJS row 10) := by
  induction l generalizing i with
  | nil => simp [collectPlayerData] at h
  | cons row rest ih =>
    unfold collectPlayerData at h
    split at h
    · next hc =>
      rcases List.mem_cons.mp h with rfl | h2
      · exact ⟨0, row, by simp, rfl, hc.1, rfl, rfl, rfl⟩
      · obtain ⟨j, r2, hr, hri, hlen, h0, h1, h10⟩ := ih h2
        exact ⟨j + 1, r2, by simpa using hr, by omega, hlen, h0, h1, h10⟩
    · obtain ⟨j, r2, hr, hri, hlen, h0, h1, h10⟩ := ih h
      exact ⟨j + 1, r2, by simpa using hr, by omega, hlen, h0, h1, h10⟩

theorem collectPlayerData_row_index_lt {e : Bool} {i : Nat} {l : List Row} {d : PlayerDatum}
    (h : d ∈ collectPlayerData e i l) : i < d.row_index := by
  obtain ⟨j, row, _, hri, _⟩ := collectPlayerData_mem h
  omega

theorem collectPlayerData_pairwise (e : Bool) (i : Nat) (l : List Row) :
    (collectPlayerData e i l).Pairwise fun a b => a.row_index < b.row_index := by
  induction l generalizing i with
  | nil => simp [collectPlayerData]
  | cons row rest ih =>
    unfold collectPlayerData
    split
    · refine List.Pairwise.cons ?_ (ih (i + 1))
      intro z hz
      simpa using collectPlayerData_row_index_lt hz
    · exact ih (i + 1)

/-- Every collected datum points back inside the sheet, at a row with at least
11 cells whose stored total score it carries. -/
theorem playerDataOf_mem_spec {e : Bool} {v : List Row} {d : PlayerDatum}
    (hd : d ∈ playerDataOf e v) :
    1 ≤ d.row_index ∧ d.row_index - 1 < v.length ∧
      11 ≤ (getRow v (d.row_index - 1)).length ∧
      d.total_score = jsIntOr0 (getJS (getRow v (d.row_index - 1)) 10) := by
  unfold playerDataOf at hd
  obtain ⟨j, row, hr, hri, hlen, _, _, h10⟩ := collectPlayerData_mem hd
  rw [List.getElem?_drop] at hr
  have hj : startIndex v "player_id" + j < v.length := by
    rcases List.getElem?_eq_some_iff.mp hr with ⟨hlt, _⟩
    exact hlt
  have hrow : getRow v (d.row_index - 1) = row := by
    unfold getRow
    have : d.row_index - 1 = startIndex v "player_id" + j := by omega
    rw [this, hr]
    rfl
  refine ⟨by omega, by omega, ?_, ?_⟩
  · rw [hrow]; exact hlen
  · rw [hrow]; exact h10

/-! Lemmas about the position write-back loop. -/

theorem positionWritesFrom_mem {k : Nat} {l : List PlayerDatum} {p : Nat × JSVal}
    (h : p ∈ positionWritesFrom k l) :
    ∃ (j : Nat) (d : PlayerDatum), l[j]? = some d ∧ p.1 = d.row_index ∧
      p.2 = JSVal.num ((k : Int) + (j : Int) + 1) := by
  induction l generalizing k with
  | nil => simp [positionWritesFrom] at h
  | cons d0 rest ih =>
    unfold positionWritesFrom at h
    rcases List.mem_cons.mp h with rfl | h2
    · exact ⟨0, d0, by simp, rfl, by simp⟩
    · obtain ⟨j, d, hget, h1, h2'⟩ := ih h2
      refine ⟨j + 1, d, by simpa using hget, h1, ?_⟩
      rw [h2']
      congr 1
      push_cast
      ring

theorem positionWritesFrom_mem_of_get? {k j : Nat} {l : List PlayerDatum} {d : PlayerDatum}
    (h : l[j]? = some d) :
    (d.row_index, JSVal.num ((k : Int) + j + 1)) ∈ positionWritesFrom k l := by
  induction l generalizing k j with
  | nil => simp at h
  | cons d0 rest ih =>
    cases j with
    | zero =>
      simp at h
      subst h
      unfold positionWritesFrom
      simp
    | succ j =>
      simp at h
      unfold positionWritesFrom
      refine List.mem_cons_of_mem _ ?_
      have := ih (k := k + 1) h
      have harith : ((k + 1 : Nat) : Int) + j + 1 = (k : Int) + (j + 1) + 1 := by push_cast; ring
      rwa [harith] at this

theorem positionWritesFrom_map_fst (k : Nat) (l : List PlayerDatum) :
    (positionWritesFrom k l).map Prod.fst = l.map PlayerDatum.row_index := by
  induction l generalizing k with
  | nil => simp [positionWritesFrom]
  | cons d rest ih => simpa [positionWritesFrom] using ih (k := k + 1)

/-! Lemmas about applying a batch of column-L writes. -/

theorem applyWrites_length (ws : List (Nat × JSVal)) (v : List Row) :
    (applyWrites v ws).length = v.length := by
  induction ws generalizing v with
  | nil => rfl
  | cons w rest ih =>
    cases w with
    | mk idx val =>
      rw [show applyWrites v ((idx, val) :: rest) =
            applyWrites (setSheetCell v idx 11 val) rest from rfl]
      rw [ih, setSheetCell_length]

theorem applyWrites_get?_notin {ws : List (Nat × JSVal)} {v : List Row} {j : Nat}
    (h1 : ∀ p ∈ ws, 1 ≤ p.1) (h2 : ∀ p ∈ ws, p.1 ≠ j + 1) :
    (applyWrites v ws)[j]? = v[j]? := by
  induction ws generalizing v with
  | nil => rfl
  | cons w rest ih =>
    cases w with
    | mk idx val =>
      rw [show applyWrites v ((idx, val) :: rest) =
            applyWrites (setSheetCell v idx 11 val) rest from rfl]
      rw [ih (fun p hp => h1 p (List.mem_cons_of_mem _ hp))
            (fun p hp => h2 p (List.mem_cons_of_mem _ hp))]
      refine setSheetCell_get?_ne v ?_
      have ha : 1 ≤ idx := h1 (idx, val) (List.mem_cons_self _ _)
      have hb : idx ≠ j + 1 := h2 (idx, val) (List.mem_cons_self _ _)
      omega

theorem applyWrites_get?_target {ws : List (Nat × JSVal)} {v : List Row} {r : Nat} {val : JSVal}
    (h1 : ∀ p ∈ ws, 1 ≤ p.1) (hp : ws.Pairwise fun a b => a.1 ≠ b.1) (hm : (r, val) ∈ ws) :
    (applyWrites v ws)[r - 1]? = (v[r - 1]?).map (fun row => setCell row 11 val) := by
  induction ws generalizing v with
  | nil => cases hm
  | cons w rest ih =>
    cases w with
    | mk idx v0 =>
      rw [List.pairwise_cons] at hp
      rw [show applyWrites v ((idx, v0) :: rest) =
            applyWrites (setSheetCell v idx 11 v0) rest from rfl]
      rcases List.mem_cons.mp hm with heq | hm2
      · obtain ⟨rfl, rfl⟩ := Prod.mk.injEq r val idx v0 ▸ And.intro (congrArg Prod.fst heq)
          (congrArg Prod.snd heq)
        have hr1 : 1 ≤ r := h1 (r, val) (List.mem_cons_self _ _)
        rw [applyWrites_get?_notin (fun p hp2 => h1 p (List.mem_cons_of_mem _ hp2))
              (fun p hp2 => by have := hp.1 p hp2; simp at this; omega)]
        exact setSheetCell_get?_eq v r 11 val
      · have hidx : 1 ≤ idx := h1 (idx, v0) (List.mem_cons_self _ _)
        have hr1 : 1 ≤ r := h1 (r, val) (List.mem_cons_of_mem _ hm2)
        have hne : idx ≠ r := by have := hp.1 (r, val) hm2; simpa using this
        rw [ih (fun p hp2 => h1 p (List.mem_cons_of_mem _ hp2)) hp.2 hm2]
        rw [setSheetCell_get?_ne v (by omega)]

theorem applyWrites_idem {ws : List (Nat × JSVal)} {v : List Row}
    (h1 : ∀ p ∈ ws, 1 ≤ p.1) (hp : ws.Pairwise fun a b => a.1 ≠ b.1) :
    applyWrites (applyWrites v ws) ws = applyWrites v ws := by
  apply List.ext_get?_iff.mpr
  intro n
  rw [List.get?_eq_getElem?, List.get?_eq_getElem?]
  by_cases hex : ∃ p ∈ ws, p.1 = n + 1
  · obtain ⟨⟨r, val⟩, hmem, hr⟩ := hex
    have hr' : r = n + 1 := hr
    have hn : n = r - 1 := by omega
    subst hn
    rw [applyWrites_get?_target h1 hp hmem, applyWrites_get?_target h1 hp hmem]
    cases hv : v[r - 1]? with
    | none => rfl
    | some row => simp [setCell_setCell]
  · push_neg at hex
    exact applyWrites_get?_notin h1 hex

/-! The position write-back touches only column L of rows with at least 11
cells, so it leaves the recalculation's own input data unchanged. -/

/-- The projections of a row that the recalculation data collection reads. -/
def RowEquiv (r₁ r₂ : Row) : Prop :=
  (11 ≤ r₁.length ↔ 11 ≤ r₂.length) ∧ getJS r₁ 0 = getJS r₂ 0 ∧
    getJS r₁ 1 = getJS r₂ 1 ∧ getJS r₁ 10 = getJS r₂ 10

theorem rowEquiv_refl (r : Row) : RowEquiv r r := ⟨Iff.rfl, rfl, rfl, rfl⟩

theorem rowEquiv_trans {a b c : Row} (h1 : RowEquiv a b) (h2 : RowEquiv b c) : RowEquiv a c :=
  ⟨h1.1.trans h2.1, h1.2.1.trans h2.2.1, h1.2.2.1.trans h2.2.2.1, h1.2.2.2.trans h2.2.2.2⟩

theorem rowEquiv_setCell11 {r : Row} (h : 11 ≤ r.length) (val : JSVal) :
    RowEquiv (setCell r 11 val) r := by
  refine ⟨?_, ?_, ?_, ?_⟩
  · constructor
    · intro _; exact h
    · intro _; rw [length_setCell]; split <;> omega
  · exact getJS_setCell_below r val (by omega) (by omega)
  · exact getJS_setCell_below r val (by omega) (by omega)
  · exact getJS_setCell_below r val (by omega) (by omega)

theorem rowEquiv_getRow_applyWrites {ws : List (Nat × JSVal)} {v : List Row}
    (h : ∀ p ∈ ws, 1 ≤ p.1 ∧ 11 ≤ (getRow v (p.1 - 1)).length) :
    ∀ j, RowEquiv (getRow (applyWrites v ws) j) (getRow v j) := by
  induction ws generalizing v with
  | nil => intro j; exact rowEquiv_refl _
  | cons w rest ih =>
    cases w with
    | mk idx val =>
      intro j
      have hw := h (idx, val) (List.mem_cons_self _ _)
      have hstep : ∀ j, RowEquiv (getRow (setSheetCell v idx 11 val) j) (getRow v j) := by
        intro j
        by_cases hj : j = idx - 1
        · subst hj
          unfold getRow
          rw [setSheetCell_get?_eq]
          cases hv : v[idx - 1]? with
          | none => exact rowEquiv_refl _
          | some row =>
            have hlen : 11 ≤ row.length := by
              have h2 := hw.2
              unfold getRow at h2
              rw [hv] at h2
              simpa using h2
            show RowEquiv (setCell row 11 val) row
            exact rowEquiv_setCell11 hlen val
        · unfold getRow
          rw [setSheetCell_get?_ne v hj]
          exact rowEquiv_refl _
      have hrest : ∀ p ∈ rest, 1 ≤ p.1 ∧
          11 ≤ (getRow (setSheetCell v idx 11 val) (p.1 - 1)).length := by
        intro p hp
        have h2 := h p (List.mem_cons_of_mem _ hp)
        exact ⟨h2.1, (hstep (p.1 - 1)).1.mpr h2.2⟩
      rw [show applyWrites v ((idx, val) :: rest) =
            applyWrites (setSheetCell v idx 11 val) rest from rfl]
      exact rowEquiv_trans (ih hrest j) (hstep j)

theorem forall₂_of_pointwise {R : Row → Row → Prop} :
    ∀ {l₁ l₂ : List Row}, l₁.length = l₂.length →
      (∀ j, R (getRow l₁ j) (getRow l₂ j)) → List.Forall₂ R l₁ l₂ := by
  intro l₁
  induction l₁ with
  | nil =>
    intro l₂ h _
    cases l₂ with
    | nil => exact List.Forall₂.nil
    | cons r2 rs2 => simp at h
  | cons r rs ih =>
    intro l₂ h hp
    cases l₂ with
    | nil => simp at h
    | cons r2 rs2 =>
      refine List.Forall₂.cons ?_ (ih (by simpa using h) ?_)
      · have h0 := hp 0
        unfold getRow at h0
        simpa using h0
      · intro j
        have hj := hp (j + 1)
        unfold getRow at hj
        simpa using hj

theorem forall₂_drop {R : Row → Row → Prop} :
    ∀ (n : Nat) {l₁ l₂ : List Row}, List.Forall₂ R l₁ l₂ →
      List.Forall₂ R (l₁.drop n) (l₂.drop n) := by
  intro n
  induction n with
  | zero => intro _ _ h; simpa using h
  | succ n ih =>
    intro l₁ l₂ h
    cases h with
    | nil => exact List.Forall₂.nil
    | cons h1 h2 => simpa [List.drop_succ_cons] using ih h2

theorem startIndex_congr {l₁ l₂ : List Row} (h : List.Forall₂ RowEquiv l₁ l₂) (hdr : String) :
    startIndex l₁ hdr = startIndex l₂ hdr := by
  cases h with
  | nil => rfl
  | cons h1 h2 =>
    simp only [startIndex]
    rw [h1.2.1]

theorem collectPlayerData_congr (e : Bool) {l₁ l₂ : List Row} (i : Nat)
    (h : List.Forall₂ RowEquiv l₁ l₂) :
    collectPlayerData e i l₁ = collectPlayerData e i l₂ := by
  induction h generalizing i with
  | nil => rfl
  | @cons a b la lb h1 h2 ih =>
    obtain ⟨hlen, h0, hnm, h10⟩ := h1
    unfold collectPlayerData
    by_cases hc : 11 ≤ a.length ∧ (e = true → getJS a 0 ≠ JSVal.str "DELETED")
    · have hc' : 11 ≤ b.length ∧ (e = true → getJS b 0 ≠ JSVal.str "DELETED") := by
        refine ⟨hlen.mp hc.1, fun he => ?_⟩
        rw [← h0]
        exact hc.2 he
      rw [if_pos hc, if_pos hc', h0, hnm, h10, ih (i + 1)]
    · have hc' : ¬ (11 ≤ b.length ∧ (e = true → getJS b 0 ≠ JSVal.str "DELETED")) := by
        intro hb
        exact hc ⟨hlen.mpr hb.1, fun he => by rw [h0]; exact hb.2 he⟩
      rw [if_neg hc, if_neg hc', ih (i + 1)]

/-- Writing positions back does not change the collected player data. -/
theorem playerDataOf_applyWrites (e : Bool) (v : List Row) (ws : List (Nat × JSVal))
    (h : ∀ p ∈ ws, 1 ≤ p.1 ∧ 11 ≤ (getRow v (p.1 - 1)).length) :
    playerDataOf e (applyWrites v ws) = playerDataOf e v := by
  have hfa : List.Forall₂ RowEquiv (applyWrites v ws) v :=
    forall₂_of_pointwise (applyWrites_length ws v) (rowEquiv_getRow_applyWrites h)
  unfold playerDataOf
  rw [startIndex_congr hfa]
  exact collectPlayerData_congr e _ (forall₂_drop _ hfa)

/-! Facts about the writes generated by one recalculation pass. -/

theorem recalcWrites_target_spec (e : Bool) (v : List Row) :
    ∀ p ∈ positionWritesFrom 0 (sortDescBy PlayerDatum.total_score (playerDataOf e v)),
      1 ≤ p.1 ∧ p.1 - 1 < v.length ∧ 11 ≤ (getRow v (p.1 - 1)).length := by
  intro p hp
  obtain ⟨j, d, hget, hfst, _⟩ := positionWritesFrom_mem hp
  have hd : d ∈ playerDataOf e v :=
    (sortDescBy_perm PlayerDatum.total_score (playerDataOf e v)).mem_iff.mp
      (List.getElem?_mem hget)
  obtain ⟨h1, h2, h3, _⟩ := playerDataOf_mem_spec hd
  rw [hfst]
  exact ⟨h1, h2, h3⟩

theorem recalcWrites_pairwise (e : Bool) (v : List Row) :
    (positionWritesFrom 0 (sortDescBy PlayerDatum.total_score (playerDataOf e v))).Pairwise
      fun a b => a.1 ≠ b.1 := by
  have hpair : (playerDataOf e v).Pairwise fun a b => a.row_index < b.row_index :=
    collectPlayerData_pairwise e _ _
  have hnd : ((playerDataOf e v).map PlayerDatum.row_index).Nodup :=
    List.pairwise_map.mpr (hpair.imp fun hab => Nat.ne_of_lt hab)
  have hnd2 : ((sortDescBy PlayerDatum.total_score (playerDataOf e v)).map
      PlayerDatum.row_index).Nodup :=
    (((sortDescBy_perm PlayerDatum.total_score (playerDataOf e v)).map
        PlayerDatum.row_index).nodup_iff).mpr hnd
  have hfst := positionWritesFrom_map_fst 0
    (sortDescBy PlayerDatum.total_score (playerDataOf e v))
  have : ((positionWritesFrom 0
      (sortDescBy PlayerDatum.total_score (playerDataOf e v))).map Prod.fst).Nodup := by
    rw [hfst]; exact hnd2
  exact List.pairwise_map.mp this

/-- Reading back the stored position of the entry at index `j` of the sorted
array: cell L of its sheet row holds exactly `j + 1` after recalculation. -/
theorem recalc_stored_position (e : Bool) (v : List Row) {j : Nat} {d : PlayerDatum}
    (hj : (sortDescBy PlayerDatum.total_score (playerDataOf e v))[j]? = some d) :
    jsIntOr0 (getJS (getRow (recalcPositions e v) (d.row_index - 1)) 11) = (j : Int) + 1 := by
  have htar := recalcWrites_target_spec e v
  have hpw := recalcWrites_pairwise e v
  have hw : (d.row_index, JSVal.num ((0 : Int) + (j : Int) + 1)) ∈
      positionWritesFrom 0 (sortDescBy PlayerDatum.total_score (playerDataOf e v)) :=
    positionWritesFrom_mem_of_get? hj
  have hd : d ∈ playerDataOf e v :=
    (sortDescBy_perm PlayerDatum.total_score (playerDataOf e v)).mem_iff.mp
      (List.getElem?_mem hj)
  obtain ⟨hge1, hlt, hlen, _⟩ := playerDataOf_mem_spec hd
  have h2 := applyWrites_get?_target (v := v) (fun p hp => (htar p hp).1) hpw hw
  rw [List.getElem?_eq_getElem hlt] at h2
  have h3 : getRow (recalcPositions e v) (d.row_index - 1) =
      setCell v[d.row_index - 1] 11 (JSVal.num ((0 : Int) + (j : Int) + 1)) := by
    show ((recalcPositions e v)[d.row_index - 1]?).getD [] = _
    rw [show recalcPositions e v = applyWrites v (positionWritesFrom 0
      (sortDescBy PlayerDatum.total_score (playerDataOf e v))) from rfl] at *
    rw [h2]
    rfl
  rw [h3, getJS_setCell_eq]
  show ((jsParseInt _).getD 0) = _
  simp [jsParseInt]

/-- Lists whose entries are successive positions starting at `k + 1`, written as
`range'`.  Used to state that positions are exactly `1..N`. -/
theorem map_eq_range'_of_getElem? {f : PlayerDatum → Int} :
    ∀ (l : List PlayerDatum) (k : Nat),
      (∀ (j : Nat) (d : PlayerDatum), l[j]? = some d → f d = ((k : Int) + (j : Int) + 1)) →
      l.map f = (List.range' (k + 1) l.length).map (fun i => (i : Int)) := by
  intro l
  induction l with
  | nil => intro k h; rfl
  | cons d rest ih =>
    intro k h
    have h0 : f d = (k : Int) + 1 := by
      have := h 0 d (by simp)
      simpa using this
    have htail := ih (k + 1) (fun j d' hj => by
      have := h (j + 1) d' (by simpa using hj)
      rw [this]
      push_cast
      ring)
    simp only [List.map_cons, List.length_cons, List.range'_succ]
    refine congrArg₂ List.cons ?_ ?_
    · rw [h0]; push_cast; ring
    · exact htail

/-! Demonstration data: a `players` sheet with three ranked rows, scores
500 (row 1, "A"), 800 (row 2, "B"), 500 (row 3, "C", stored after "A"). -/

/-- An 11-cell player row carrying only id, name and total score. -/
def scoreRow11 (pid name : String) (score : Int) : Row :=
  [.str pid, .str name, .str "", .str "", .num 0, .num 0, .str "", .str "", .str "",
   .num 0, .num score]

def c1Sheet : List Row :=
  [scoreRow11 "A" "A" 500, scoreRow11 "B" "B" 800, scoreRow11 "C" "C" 500]

def datumA : PlayerDatum := ⟨.str "A", .str "A", 500, 1⟩

def datumC : PlayerDatum := ⟨.str "C", .str "C", 500, 3⟩

def submitA : GlobalScoreBody := ⟨.str "A", .str "A", .num 500, .num 1⟩

def submitB : GlobalScoreBody := ⟨.str "B", .str "B", .num 800, .num 1⟩

def submitC : GlobalScoreBody := ⟨.str "C", .str "C", .num 500, .num 1⟩

/-- The `players` sheet after submitting 500 ("A"), 800 ("B"), 500 ("C", later
timestamp, hence appended after "A") through `/global-score`. -/
def c1ScenarioPlayers : List Row :=
  ((handleGlobalScore
    ((handleGlobalScore
      ((handleGlobalScore ⟨[], [], []⟩ submitA "t1").1) submitB "t2").1) submitC "t3").1).players

/-- C1 counterexample: in the claim's scenario — scores 500 ("A"), 800 ("B"),
500 ("C", later timestamp than "A") submitted to the global scope — the code
stores the ranking B = 1, A = 2, C = 3: the tie between A and C goes to the
EARLIER submission, so C does not get position 2 as the claim requires.  (The
comparator sorts by score only; the stable sort keeps storage order on ties.) -/
theorem claim_C1_counterexample :
    (getJS (getRow c1ScenarioPlayers 1) 11 = JSVal.num 1 ∧
      getJS (getRow c1ScenarioPlayers 0) 11 = JSVal.num 2 ∧
      getJS (getRow c1ScenarioPlayers 2) 11 = JSVal.num 3) ∧
    ¬ (getJS (getRow c1ScenarioPlayers 2) 11 = JSVal.num 2 ∧
        getJS (getRow c1ScenarioPlayers 0) 11 = JSVal.num 3) := by
  decide

/-- C1 (amended): in rank recalculation, entries are sorted by score descending
with ties broken by storage order ascending: for every pair of ranked entries
with equal score, the one stored EARLIER (smaller sheet row, i.e. the earlier
timestamp) receives the strictly smaller (better) stored position. -/
theorem claim_C1_theorem (values : List Row) (d₁ d₂ : PlayerDatum)
    (h₁ : d₁ ∈ playerDataOf true values) (h₂ : d₂ ∈ playerDataOf true values)
    (hscore : d₁.total_score = d₂.total_score) (hrow : d₁.row_index < d₂.row_index) :
    jsIntOr0 (getJS (getRow (recalcPositions true values) (d₁.row_index - 1)) 11) <
      jsIntOr0 (getJS (getRow (recalcPositions true values) (d₂.row_index - 1)) 11) := by
  have hperm := sortDescBy_perm PlayerDatum.total_score (playerDataOf true values)
  obtain ⟨i₁, hi₁⟩ := List.mem_iff_getElem?.mp (hperm.mem_iff.mpr h₁)
  obtain ⟨i₂, hi₂⟩ := List.mem_iff_getElem?.mp (hperm.mem_iff.mpr h₂)
  have hlex := sortDescBy_pairwise_lex PlayerDatum.total_score PlayerDatum.row_index
    (playerDataOf true values) (collectPlayerData_pairwise true _ _)
  have hij : i₁ < i₂ := by
    rcases Nat.lt_trichotomy i₁ i₂ with h | h | h
    · exact h
    · exfalso
      subst h
      rw [hi₁] at hi₂
      injection hi₂ with h'
      rw [h'] at hrow
      omega
    · exfalso
      obtain ⟨hb₂, he₂⟩ := List.getElem?_eq_some_iff.mp hi₂
      obtain ⟨hb₁, he₁⟩ := List.getElem?_eq_some_iff.mp hi₁
      have hR := List.pairwise_iff_getElem.mp hlex i₂ i₁ hb₂ hb₁ h
      rw [he₁, he₂] at hR
      omega
  rw [recalc_stored_position true values hi₁, recalc_stored_position true values hi₂]
  omega

/-- C1 (amended) witness at the scenario data: with scores 500/800/500 stored in
that order, entry "A" (row 1) and entry "C" (row 3) tie at 500 and "A" gets the
strictly better stored position. -/
theorem claim_C1_witness :
    (datumA ∈ playerDataOf true c1Sheet ∧ datumC ∈ playerDataOf true c1Sheet ∧
      datumA.total_score = datumC.total_score ∧ datumA.row_index < datumC.row_index) ∧
    jsIntOr0 (getJS (getRow (recalcPositions true c1Sheet) (datumA.row_index - 1)) 11) <
      jsIntOr0 (getJS (getRow (recalcPositions true c1Sheet) (datumC.row_index - 1)) 11) :=
  ⟨⟨by decide, by decide, by decide, by decide⟩,
    claim_C1_theorem c1Sheet datumA datumC (by decide) (by decide) (by decide) (by decide)⟩

/-- C2: after a recalculation pass over a non-empty scope, the stored positions
of the ranked entries (read back from column L at each entry's row) are exactly
a permutation of `1..N`, `N` the number of ranked entries — no gaps, no
duplicates.  Both recalculation variants (`/global-score`'s, with the DELETED
filter, and `recalculateGlobalPositions`, without) are covered. -/
theorem claim_C2_theorem (excludeDeleted : Bool) (values : List Row)
    (h : playerDataOf excludeDeleted values ≠ []) :
    List.Perm
      ((playerDataOf excludeDeleted values).map (fun d =>
        jsIntOr0 (getJS (getRow (recalcPositions excludeDeleted values) (d.row_index - 1)) 11)))
      ((List.range' 1 (playerDataOf excludeDeleted values).length).map (fun i => (i : Int))) := by
  have hperm := (sortDescBy_perm PlayerDatum.total_score (playerDataOf excludeDeleted values)).symm
  have h1 := hperm.map (fun d =>
    jsIntOr0 (getJS (getRow (recalcPositions excludeDeleted values) (d.row_index - 1)) 11))
  have h2 := map_eq_range'_of_getElem?
    (sortDescBy PlayerDatum.total_score (playerDataOf excludeDeleted values)) 0
    (fun j d hj => (recalc_stored_position excludeDeleted values hj).trans (by push_cast; ring))
  rw [h2] at h1
  have hlen : (sortDescBy PlayerDatum.total_score (playerDataOf excludeDeleted values)).length =
      (playerDataOf excludeDeleted values).length :=
    (sortDescBy_perm PlayerDatum.total_score (playerDataOf excludeDeleted values)).length_eq
  rw [hlen] at h1
  exact h1

/-- C2 witness: on the three-row demonstration sheet the stored positions read
back as a permutation of `1..3`. -/
theorem claim_C2_witness :
    playerDataOf true c1Sheet ≠ [] ∧
    List.Perm
      ((playerDataOf true c1Sheet).map (fun d =>
        jsIntOr0 (getJS (getRow (recalcPositions true c1Sheet) (d.row_index - 1)) 11)))
      ((List.range' 1 (playerDataOf true c1Sheet).length).map (fun i => (i : Int))) :=
  ⟨by decide, claim_C2_theorem true c1Sheet (by decide)⟩

/-- C8: the recalculation is idempotent — running it twice with no intervening
writes leaves the sheet (hence every stored position) exactly as after one run,
because each run recomputes from a fresh full read and writes absolute
positions.  Covers both variants (with and without the DELETED filter). -/
theorem claim_C8_theorem (excludeDeleted : Bool) (values : List Row) :
    recalcPositions excludeDeleted (recalcPositions excludeDeleted values) =
      recalcPositions excludeDeleted values := by
  have htar := recalcWrites_target_spec excludeDeleted values
  have hpw := recalcWrites_pairwise excludeDeleted values
  have hP : playerDataOf excludeDeleted (recalcPositions excludeDeleted values) =
      playerDataOf excludeDeleted values :=
    playerDataOf_applyWrites excludeDeleted values _
      (fun p hp => ⟨(htar p hp).1, (htar p hp).2.2⟩)
  have hstep : recalcPositions excludeDeleted (recalcPositions excludeDeleted values) =
      applyWrites (recalcPositions excludeDeleted values)
        (positionWritesFrom 0 (sortDescBy PlayerDatum.total_score
          (playerDataOf excludeDeleted values))) := by
    rw [show recalcPositions excludeDeleted (recalcPositions excludeDeleted values) =
      applyWrites (recalcPositions excludeDeleted values) (positionWritesFrom 0
        (sortDescBy PlayerDatum.total_score
          (playerDataOf excludeDeleted (recalcPositions excludeDeleted values)))) from rfl, hP]
  rw [hstep]
  exact applyWrites_idem (fun p hp => (htar p hp).1) hpw

/-! C3: there is no trimming step anywhere — every accepted submission appends a
row to the scores sheet and nothing ever deletes one. -/

/-- Iterated `/global-score` submissions with a fixed body. -/
def iterateGlobalScore (b : GlobalScoreBody) (now : String) : Nat → ServerState → ServerState
  | 0, st => st
  | n + 1, st => iterateGlobalScore b now n (handleGlobalScore st b now).1

theorem handleGlobalScore_scores_length (st : ServerState) (b : GlobalScoreBody)
    (now : String) (h : validGlobal b = true) :
    (handleGlobalScore st b now).1.global_scores.length = st.global_scores.length + 1 := by
  unfold handleGlobalScore
  simp [h]

theorem iterateGlobalScore_scores_length (b : GlobalScoreBody) (now : String)
    (h : validGlobal b = true) :
    ∀ (n : Nat) (st : ServerState),
      (iterateGlobalScore b now n st).global_scores.length = st.global_scores.length + n := by
  intro n
  induction n with
  | zero => intro st; simp [iterateGlobalScore]
  | succ n ih =>
    intro st
    rw [show iterateGlobalScore b now (n + 1) st =
      iterateGlobalScore b now n (handleGlobalScore st b now).1 from rfl,
      ih (handleGlobalScore st b now).1, handleGlobalScore_scores_length st b now h]
    omega

/-- C3 counterexample: the scope is never trimmed to `MAX_ENTRIES = 100`; after
101 accepted submissions to the global scope it holds 101 rows, not 100.  (No
deletion of score rows exists anywhere in the submission path.) -/
theorem claim_C3_counterexample :
    (iterateGlobalScore submitA "t" 101 ⟨[], [], []⟩).global_scores.length = 101 ∧
    (iterateGlobalScore submitA "t" 101 ⟨[], [], []⟩).global_scores.length ≠ 100 := by
  have h := iterateGlobalScore_scores_length submitA "t" (by decide) 101 ⟨[], [], []⟩
  rw [h]
  exact ⟨rfl, by decide⟩

/-- C3 (amended): submissions are never trimmed — after `n` accepted
`/global-score` submissions a scope holds its initial row count plus `n`; the
100-row bound exists only as query-side truncation, not in storage. -/
theorem claim_C3_theorem (b : GlobalScoreBody) (now : String) (n : Nat) (st : ServerState)
    (h : validGlobal b = true) :
    (iterateGlobalScore b now n st).global_scores.length = st.global_scores.length + n :=
  iterateGlobalScore_scores_length b now h n st

/-- C3 (amended) witness: two accepted submissions on an empty sheet leave two
rows. -/
theorem claim_C3_witness :
    validGlobal submitA = true ∧
    (iterateGlobalScore submitA "t" 2 ⟨[], [], []⟩).global_scores.length =
      (⟨[], [], []⟩ : ServerState).global_scores.length + 2 :=
  ⟨by decide, claim_C3_theorem submitA "t" 2 ⟨[], [], []⟩ (by decide)⟩

/-! C5: no scope provisioning exists for level scores — any level id is accepted
and written to the single `level_scores` sheet. -/

def submit99 : LevelScoreBody :=
  ⟨.str "p1", .str "P", .str "99", .str "en", .str "easy", .num 100, .num 0⟩

/-- C5 counterexample: submitting to the unprovisioned level scope "99"
does not fail with any ScopeNotFound-like error: the handler answers success
and appends one row to `level_scores`.  (No scope-existence check is present.) -/
theorem claim_C5_counterexample :
    (handleLevelScore ⟨[], [], []⟩ submit99 "t").2 =
      .ok "Level score submitted successfully!" none ∧
    (handleLevelScore ⟨[], [], []⟩ submit99 "t").1.level_scores.length = 1 := by
  decide

/-- C5 (amended): every field-complete level submission succeeds, whatever its
`level_id` — the row is appended to the single `level_scores` sheet (level
scopes are not pre-provisioned tables and no ScopeNotFound error exists). -/
theorem claim_C5_theorem (st : ServerState) (b : LevelScoreBody) (now : String)
    (h : validLevel b = true) :
    (handleLevelScore st b now).2 = .ok "Level score submitted successfully!" none ∧
    (handleLevelScore st b now).1.level_scores = st.level_scores ++ [levelScoreRow b now] := by
  unfold handleLevelScore handleLevelScoreInterleaved
  simp [h]

/-- C5 (amended) witness at level id "99" on the empty state. -/
theorem claim_C5_witness :
    validLevel submit99 = true ∧
    ((handleLevelScore ⟨[], [], []⟩ submit99 "t").2 =
        .ok "Level score submitted successfully!" none ∧
      (handleLevelScore ⟨[], [], []⟩ submit99 "t").1.level_scores =
        ([] : List Row) ++ [levelScoreRow submit99 "t"]) :=
  ⟨by decide, claim_C5_theorem ⟨[], [], []⟩ submit99 "t" (by decide)⟩

/-! C6: validation is JS truthiness only. -/

def submitNegativeScore : LevelScoreBody :=
  ⟨.str "p1", .str "P", .str "L1", .str "en", .str "easy", .num (-5), .num 0⟩

def submitMissingScore : LevelScoreBody :=
  ⟨.str "p1", .str "P", .str "L1", .str "en", .str "easy", .undefined, .num 0⟩

def submitGlobalNoName : GlobalScoreBody := ⟨.str "A", .str "", .num 500, .num 1⟩

def submitAbcScore : LevelScoreBody :=
  ⟨.str "p1", .str "P", .str "L1", .str "en", .str "easy", .str "abc", .num 0⟩

/-- C6 counterexample: a non-positive score (−5) is NOT rejected with a
validation error — it is truthy, passes the missing-fields check, and a row is
written to storage. -/
theorem claim_C6_counterexample :
    (handleLevelScore ⟨[], [], []⟩ submitNegativeScore "t").2 =
      .ok "Level score submitted successfully!" none ∧
    (handleLevelScore ⟨[], [], []⟩ submitNegativeScore "t").1.level_scores.length = 1 := by
  decide

/-- C6 (amended): validation is JS truthiness, checked before any storage
effect.  Whenever any required field of a submission is falsy — playerName or
score absent, empty, or zero, and for level submissions also levelId, language
or difficulty — the handler (global and level alike) answers 400 "Missing
required fields" and returns the state unchanged.  And whenever every required
field is truthy — which includes negative numbers and non-numeric strings,
since truthiness is not a numeric check — the level submission passes
validation and its row, with that score value, is written to storage. -/
theorem claim_C6_theorem (st : ServerState) (bg : GlobalScoreBody) (bl : LevelScoreBody)
    (now : String) :
    (validGlobal bg = false →
      handleGlobalScore st bg now = (st, .badRequest "Missing required fields")) ∧
    (validLevel bl = false →
      handleLevelScore st bl now = (st, .badRequest "Missing required fields")) ∧
    (validLevel bl = true →
      (handleLevelScore st bl now).2 = .ok "Level score submitted successfully!" none ∧
      (handleLevelScore st bl now).1.level_scores = st.level_scores ++ [levelScoreRow bl now]) := by
  refine ⟨?_, ?_, ?_⟩
  · intro h
    unfold handleGlobalScore
    simp [h]
  · intro h
    unfold handleLevelScore handleLevelScoreInterleaved
    simp [h]
  · intro h
    unfold handleLevelScore handleLevelScoreInterleaved
    simp [h]

/-- C6 (amended) witness: an empty playerName is rejected by `/global-score`, a
missing score is rejected by `/level-score` (state untouched both times), and
the non-numeric string score "abc" is truthy, passes validation, and its row is
stored. -/
theorem claim_C6_witness :
    (validGlobal submitGlobalNoName = false ∧ validLevel submitMissingScore = false ∧
      validLevel submitAbcScore = true) ∧
    handleGlobalScore ⟨[], [], []⟩ submitGlobalNoName "t" =
      (⟨[], [], []⟩, .badRequest "Missing required fields") ∧
    handleLevelScore ⟨[], [], []⟩ submitMissingScore "t" =
      (⟨[], [], []⟩, .badRequest "Missing required fields") ∧
    ((handleLevelScore ⟨[], [], []⟩ submitAbcScore "t").2 =
        .ok "Level score submitted successfully!" none ∧
      (handleLevelScore ⟨[], [], []⟩ submitAbcScore "t").1.level_scores =
        ([] : List Row) ++ [levelScoreRow submitAbcScore "t"]) :=
  ⟨⟨by decide, by decide, by decide⟩,
    (claim_C6_theorem ⟨[], [], []⟩ submitGlobalNoName submitMissingScore "t").1 (by decide),
    (claim_C6_theorem ⟨[], [], []⟩ submitGlobalNoName submitMissingScore "t").2.1 (by decide),
    (claim_C6_theorem ⟨[], [], []⟩ submitGlobalNoName submitAbcScore "t").2.2 (by decide)⟩

/-! C4: no aggregate projection exists — a level submission never touches the
stored `total_score` column. -/

theorem getJS10_setSheetCell (sheet : List Row) (idx : Nat) {c : Nat} (v : JSVal)
    (hc : c < 10) (i : Nat) :
    getJS (getRow (setSheetCell sheet idx c v) i) 10 = getJS (getRow sheet i) 10 := by
  by_cases hi : i = idx - 1
  · subst hi
    unfold getRow
    rw [setSheetCell_get?_eq]
    cases hv : sheet[idx - 1]? with
    | none => rfl
    | some row =>
      show getJS (setCell row c v) 10 = getJS row 10
      exact getJS_setCell_above row v hc
  · unfold getRow
    rw [setSheetCell_get?_ne sheet hi]

theorem getRow_append_lt (sheet : List Row) (r : Row) {i : Nat} (hi : i < sheet.length) :
    getRow (sheet ++ [r]) i = getRow sheet i := by
  unfold getRow
  rw [List.getElem?_append_left hi]

theorem updatePlayerStats_col10 (ps : List Row) (pid score lid diff lang time : JSVal) (i : Nat) :
    getJS (getRow (updatePlayerStats ps pid score lid diff lang time) i) 10 =
      getJS (getRow ps i) 10 := by
  unfold updatePlayerStats
  split
  · rfl
  · next idx data =>
    split
    · rw [getJS10_setSheetCell, getJS10_setSheetCell, getJS10_setSheetCell,
          getJS10_setSheetCell, getJS10_setSheetCell, getJS10_setSheetCell] <;> omega
    · rw [getJS10_setSheetCell] <;> omega

theorem createOrUpdatePlayer_zero_col10 (ps : List Row) (pid pname : JSVal) (now : String)
    (i : Nat) (hi : i < ps.length) :
    getJS (getRow (createOrUpdatePlayer ps pid pname now (.num 0) (.num 0)) i) 10 =
      getJS (getRow ps i) 10 := by
  unfold createOrUpdatePlayer
  split
  · next idx data heq =>
    have hg : jsGt (JSVal.num 0) 0 = false := rfl
    simp only [hg, Bool.or_self, Bool.false_eq_true, if_false]
    rw [getJS10_setSheetCell, getJS10_setSheetCell] <;> omega
  · next heq =>
    exact congrArg (fun r => getJS r 10) (getRow_append_lt ps _ hi)

/-- C4 (amended): the ingestion of a level score never derives or updates the
stored `total_score`: for every pre-existing `players` row, column K after a
`/level-score` submission equals column K before it.  (`total_score` is only
ever set from the client-supplied value of `/global-score`; no sum over level
scopes is computed anywhere.) -/
theorem claim_C4_theorem (st : ServerState) (b : LevelScoreBody) (now : String) (i : Nat)
    (hi : i < st.players.length) :
    getJS (getRow (handleLevelScore st b now).1.players i) 10 =
      getJS (getRow st.players i) 10 := by
  unfold handleLevelScore handleLevelScoreInterleaved
  split
  · rfl
  · show getJS (getRow (updatePlayerStats _ _ _ _ _ _ _) i) 10 = _
    rw [updatePlayerStats_col10]
    exact createOrUpdatePlayer_zero_col10 st.players b.player_id b.player_name now i hi

def submitLevelP : LevelScoreBody :=
  ⟨.str "p1", .str "P", .str "L1", .str "en", .str "easy", .num 100, .num 5⟩

def c4Players : List Row := [scoreRow11 "p1" "P" 0 ++ [JSVal.num 0]]

def c4After : ServerState := (handleLevelScore ⟨c4Players, [], []⟩ submitLevelP "t9").1

/-- C4 counterexample: player "p1" has stored `total_score` 0; after a fully
processed level submission with score 100, the sum of the player's per-scope
bests (the spec's `totalScore`) is 100, but the stored `total_score` is still
0 — the invariant the claim states does not hold after the submission. -/
theorem claim_C4_counterexample :
    jsIntOr0 (getJS (getRow c4After.players 0) 10) = 0 ∧
    specTotalScore c4After.level_scores (.str "p1") = 100 ∧
    jsIntOr0 (getJS (getRow c4After.players 0) 10) ≠
      specTotalScore c4After.level_scores (.str "p1") := by
  decide

/-- C4 (amended) witness: on the demonstration state, column K of the player's
row is untouched by the level submission. -/
theorem claim_C4_witness :
    0 < (⟨c4Players, [], []⟩ : ServerState).players.length ∧
    getJS (getRow (handleLevelScore ⟨c4Players, [], []⟩ submitLevelP "t9").1.players 0) 10 =
      getJS (getRow c4Players 0) 10 :=
  ⟨by decide, claim_C4_theorem ⟨c4Players, [], []⟩ submitLevelP "t9" 0 (by decide)⟩

/-! C9: the player-not-found failure inside `updatePlayerStats` is logged and
swallowed; the handler's response is success regardless. -/

/-- C9 (amended): when the `players` snapshot read by `updatePlayerStats` does
not contain the submitting player (the storage collaborator gives each step its
own read, with no transaction — e.g. a concurrent reset removed the row), the
stats update silently does nothing, yet the `/level-score` response still
reports success: the failure is not observable to the caller. -/
theorem claim_C9_theorem (st : ServerState) (b : LevelScoreBody) (now : String)
    (mid : List Row) (hv : validLevel b = true)
    (hnf : checkPlayerExists mid b.player_id = none) :
    (handleLevelScoreInterleaved st b now mid).2 =
      .ok "Level score submitted successfully!" none ∧
    (handleLevelScoreInterleaved st b now mid).1.players = mid := by
  unfold handleLevelScoreInterleaved updatePlayerStats
  simp [hv, hnf]

/-- C9 (amended) witness: with an empty `players` snapshot at the stats-update
read, the update is skipped and the response is success. -/
theorem claim_C9_witness :
    (validLevel submitLevelP = true ∧
      checkPlayerExists [] submitLevelP.player_id = none) ∧
    ((handleLevelScoreInterleaved ⟨[], [], []⟩ submitLevelP "t" []).2 =
        .ok "Level score submitted successfully!" none ∧
      (handleLevelScoreInterleaved ⟨[], [], []⟩ submitLevelP "t" []).1.players = []) :=
  ⟨⟨by decide, by decide⟩, claim_C9_theorem ⟨[], [], []⟩ submitLevelP "t" [] (by decide) (by decide)⟩

/-- C9 counterexample: a concrete run in which the per-player stats update
cannot find the player (its snapshot is empty) — the sub-step fails, no stats
row is written, and the operation still answers success: the failure is
swallowed, refuting "no error is ever swallowed silently". -/
theorem claim_C9_counterexample :
    checkPlayerExists [] submit99.player_id = none ∧
    (handleLevelScoreInterleaved ⟨c4Players, [], []⟩ submit99 "t" []).2 =
      .ok "Level score submitted successfully!" none ∧
    (handleLevelScoreInterleaved ⟨c4Players, [], []⟩ submit99 "t" []).1.players = [] := by
  decide

/-! C7: the leaderboard query re-sorts by score; it does not order by the
stored positions. -/

def c7Sheet : List Row :=
  [scoreRow11 "p1" "P1" 10 ++ [JSVal.num 1], scoreRow11 "p2" "P2" 50 ++ [JSVal.num 2]]

/-- C7 counterexample: with stale stored positions (row "p1": score 10,
position 1; row "p2": score 50, position 2) the query returns the rows ordered
by score, i.e. with stored positions `[2, 1]` — not ascending, so the query
does not "trust the last recalculation": it re-sorts. -/
theorem claim_C7_counterexample :
    (globalLeaderboardQuery c7Sheet).map GlobalLBEntry.global_position = [2, 1] ∧
    ¬ List.Pairwise (fun a b => a ≤ b)
        ((globalLeaderboardQuery c7Sheet).map GlobalLBEntry.global_position) := by
  constructor
  · decide
  · intro hp
    rw [show (globalLeaderboardQuery c7Sheet).map GlobalLBEntry.global_position = [2, 1]
      from by decide] at hp
    have := (List.pairwise_cons.mp hp).1 1 (by simp)
    omega

/-- C7 (amended): the leaderboard query is read-only (a pure function of the
sheet) and returns rows RE-SORTED by `total_score` descending, truncated to the
top 100; the stored `position` column is returned as data but does not
determine the order. -/
theorem claim_C7_theorem (players : List Row) :
    (globalLeaderboardQuery players).Pairwise
      (fun a b => b.total_score ≤ a.total_score) ∧
    (globalLeaderboardQuery players).length ≤ 100 := by
  constructor
  · exact (sortDescBy_pairwise GlobalLBEntry.total_score _).sublist (List.take_sublist _ _)
  · unfold globalLeaderboardQuery
    simpa using List.length_take_le 100 _

/-! C10: reads are total over non-parsing score cells, but rows physically
missing the score column are dropped by the length filter. -/

def shortRow : Row :=
  [.str "p1", .str "Alice", .str "", .str "", .num 0, .num 0, .str "", .str "", .str "", .num 0]

/-- C10 counterexample: a stored row with 10 cells has no score cell (reading
column K gives `undefined`), and the global-leaderboard query DROPS it (the
`row.length >= 11` filter) instead of returning it with score 0. -/
theorem claim_C10_counterexample :
    getJS shortRow 10 = JSVal.undefined ∧ globalLeaderboardQuery [shortRow] = [] := by
  decide

def badScoreRow : Row := [.str "p", .str "A", .str "abc"]

/-- C10 (amended): the legacy leaderboard read is total over malformed score
cells: every stored row whose score cell is present but does not parse as an
integer (`parseInt` gives `NaN`) is still returned, with score 0 — the
`parseInt(…) || 0` idiom; only rows physically shorter than the score column
are dropped, and only by the filtered queries. -/
theorem claim_C10_theorem (rows : List Row) (r : Row) (hr : r ∈ rows)
    (hparse : jsParseInt (getJS r 2) = none) :
    legacyFormat r ∈ legacyLeaderboard rows ∧ (legacyFormat r).score = 0 := by
  constructor
  · unfold legacyLeaderboard
    exact (sortDescBy_perm LegacyEntry.score _).mem_iff.mpr
      (List.mem_map_of_mem legacyFormat hr)
  · show jsIntOr0 (getJS r 2) = 0
    unfold jsIntOr0
    rw [hparse]
    rfl

/-- C10 (amended) witness: a row with the non-numeric score cell "abc" is
returned by the legacy query with score 0. -/
theorem claim_C10_witness :
    (badScoreRow ∈ [badScoreRow] ∧ jsParseInt (getJS badScoreRow 2) = none) ∧
    (legacyFormat badScoreRow ∈ legacyLeaderboard [badScoreRow] ∧
      (legacyFormat badScoreRow).score = 0) :=
  ⟨⟨by decide, by decide⟩,
    claim_C10_theorem [badScoreRow] badScoreRow (by decide) (by decide)⟩

end Typefall
